import Mathlib

/-!
Verification of the HireUp candidate-job matching engine.

Shallow embedding of the core subsystems of the repository:
vector store normalization (two-tower/embedding_initializer.py and
two-tower/embedding_updates.py), interaction nudges (pull/push),
cold-start composition, the hybrid score blend and fallback ranker
(backend/services/company.py), the application status state machine
(backend/services/company.py), and the daily job pool sampler
(backend/services/user.py).

NumPy float vectors are modelled as real-valued vectors indexed by
Fin n; float scores are modelled as rationals; Python exceptions are
modelled with Except.
-/

set_option maxRecDepth 2000

/-- Real vector of dimension n, modelling a NumPy float array. -/
abbrev Vec (n : ℕ) := Fin n → ℝ

/-- Dot product, modelling numpy.dot. -/
def dotV {n : ℕ} (a b : Vec n) : ℝ := ∑ i, a i * b i

/-- L2 norm, modelling numpy.linalg.norm. -/
noncomputable def normV {n : ℕ} (v : Vec n) : ℝ := Real.sqrt (dotV v v)

/-- The 1e-12 degeneracy threshold used by every normalization site. -/
noncomputable def EPS : ℝ := 1 / 10 ^ 12

/-- Model of the function named with a leading underscore, normalize, shared by
two-tower/embedding_initializer.py (lines 30-34), two-tower/embedding_updates.py
(lines 29-33) and backend/services/company.py (lines 67-71): divide by the L2
norm unless the norm is at most 1e-12, in which case the vector is returned
unchanged. -/
noncomputable def normalizeVec {n : ℕ} (v : Vec n) : Vec n :=
  if normV v ≤ EPS then v else fun i => v i / normV v

/-- Basic positivity of the squared norm. -/
lemma dotV_self_nonneg {n : ℕ} (v : Vec n) : 0 ≤ dotV v v :=
  Finset.sum_nonneg fun i _ => mul_self_nonneg (v i)

lemma normV_nonneg {n : ℕ} (v : Vec n) : 0 ≤ normV v := Real.sqrt_nonneg _

lemma normV_mul_self {n : ℕ} (v : Vec n) : normV v * normV v = dotV v v := by
  simpa [normV] using Real.mul_self_sqrt (dotV_self_nonneg v)

lemma EPS_pos : 0 < EPS := by norm_num [EPS]

/-- A vector read back through normalize has norm exactly 1, or norm at most
the 1e-12 threshold (the degenerate passthrough branch). -/
lemma normV_normalizeVec {n : ℕ} (v : Vec n) :
    normV (normalizeVec v) = 1 ∨ normV (normalizeVec v) ≤ EPS := by
  by_cases h : normV v ≤ EPS
  · right
    simp [normalizeVec, h]
  · left
    have hpos : 0 < normV v := lt_trans EPS_pos (lt_of_not_le h)
    have hne : normV v ≠ 0 := ne_of_gt hpos
    have hdot : dotV (fun i => v i / normV v) (fun i => v i / normV v)
        = dotV v v / (normV v * normV v) := by
      simp only [dotV, div_mul_div_comm, ← Finset.sum_div]
    have hdd : 0 < dotV v v := by
      have hmul := mul_pos hpos hpos
      rwa [normV_mul_self] at hmul
    have hdot1 : dotV (fun i => v i / normV v) (fun i => v i / normV v) = 1 := by
      rw [hdot, normV_mul_self, div_self (ne_of_gt hdd)]
    simp only [normalizeVec, h, if_false]
    rw [normV, hdot1, Real.sqrt_one]

/- ============================================================
   Application status state machine
   backend/services/company.py lines 34-54 and 1453-1493
   ============================================================ -/

def STATUS_SUBMITTED : String := "submitted"

def STATUS_REJECTED_PRE : String := "rejected_pre_interview"

def STATUS_IN_PROGRESS : String := "in_progress"

def STATUS_REJECTED_POST : String := "rejected_post_interview"

def STATUS_OFFER : String := "offer"

/-- ALLOWED_STATUSES from backend/services/company.py lines 40-46. -/
def ALLOWED_STATUSES : List String :=
  [STATUS_SUBMITTED, STATUS_REJECTED_PRE, STATUS_IN_PROGRESS,
   STATUS_REJECTED_POST, STATUS_OFFER]

/-- Keys of the ALLOWED_TRANSITIONS dict (company.py lines 48-54). -/
def TRANSITION_KEYS : List String := ALLOWED_STATUSES

/-- Values of the ALLOWED_TRANSITIONS dict (company.py lines 48-54). -/
def allowedTransitionsFrom (s : String) : List String :=
  if s = STATUS_SUBMITTED then [STATUS_REJECTED_PRE, STATUS_IN_PROGRESS]
  else if s = STATUS_IN_PROGRESS then [STATUS_REJECTED_POST, STATUS_OFFER]
  else []

/-- An application row, restricted to the fields the state machine touches. -/
structure AppRecord where
  status : String
  technicalScore : Option ℤ
  deriving DecidableEq, Repr

/-- Model of update_application_status (backend/services/company.py lines
1453-1493), acting on the application record found for the company. The
function validates the status value, the transition, and the technical
score gate, raising (modelled as Except.error with the exact detail
string) before any database write. -/
def updateApplicationStatus (current : AppRecord) (status : String)
    (technicalScore : Option ℤ) : Except String AppRecord :=
  if status ∉ ALLOWED_STATUSES then .error "Invalid application status"
  else
    let previousStatus := if current.status = "" then STATUS_SUBMITTED else current.status
    if previousStatus ∉ TRANSITION_KEYS ∨ status ∉ allowedTransitionsFrom previousStatus then
      .error ("Invalid status transition: " ++ previousStatus ++ " -> " ++ status)
    else if status = STATUS_REJECTED_POST ∨ status = STATUS_OFFER then
      match technicalScore with
      | none => .error "technical_score is required for this status"
      | some t =>
        if t < 1 ∨ 10 < t then .error "technical_score must be between 1 and 10"
        else .ok { current with status := status, technicalScore := some t }
    else .ok { current with status := status, technicalScore := none }

/-- The database of applications, keyed by application id. -/
def AppDb := String → Option AppRecord

/-- Wrapper showing the persistence effect: on any validation error the
database is untouched (the source raises HTTPException before calling
database.update_company_application_status). -/
def applyUpdateStatus (db : AppDb) (applicationId : String) (status : String)
    (technicalScore : Option ℤ) : AppDb × Except String AppRecord :=
  match db applicationId with
  | none => (db, .error "Application not found for company")
  | some current =>
      match updateApplicationStatus current status technicalScore with
      | .error e => (db, .error e)
      | .ok r => (fun k => if k = applicationId then some r else db k, .ok r)

/-- The four legal (from, to) transition pairs. -/
def allowedPairs : List (String × String) :=
  [(STATUS_SUBMITTED, STATUS_REJECTED_PRE), (STATUS_SUBMITTED, STATUS_IN_PROGRESS),
   (STATUS_IN_PROGRESS, STATUS_REJECTED_POST), (STATUS_IN_PROGRESS, STATUS_OFFER)]

/-- When validation rejects the request, the application database is left
exactly as it was (the source raises before any database write). -/
lemma applyUpdateStatus_error_frame (db : AppDb) (applicationId status : String)
    (current : AppRecord) (tech : Option ℤ) (e : String)
    (hdb : db applicationId = some current)
    (h : updateApplicationStatus current status tech = .error e) :
    (applyUpdateStatus db applicationId status tech).1 = db := by
  simp [applyUpdateStatus, hdb, h]

/-- C2: update_application_status succeeds only for the four transitions
submitted→rejected_pre_interview, submitted→in_progress,
in_progress→rejected_post_interview and in_progress→offer; every other
(from, to) pair among the five statuses fails with the invalid-transition
error naming the attempted from → to, and the database is unchanged. -/
theorem updateApplicationStatus_only_allowed_transitions
    (db : AppDb) (applicationId : String) (tsPrev : Option ℤ) (tech : Option ℤ)
    (prev tgt : String)
    (hdb : db applicationId = some ⟨prev, tsPrev⟩)
    (hprev : prev ∈ ALLOWED_STATUSES) (htgt : tgt ∈ ALLOWED_STATUSES) :
    ((prev, tgt) ∉ allowedPairs →
      updateApplicationStatus ⟨prev, tsPrev⟩ tgt tech
          = .error ("Invalid status transition: " ++ prev ++ " -> " ++ tgt)
        ∧ (applyUpdateStatus db applicationId tgt tech).1 = db) ∧
    (∀ r, updateApplicationStatus ⟨prev, tsPrev⟩ tgt tech = .ok r →
      (prev, tgt) ∈ allowedPairs) := by
  constructor
  · intro hpair
    have herr : updateApplicationStatus ⟨prev, tsPrev⟩ tgt tech
        = .error ("Invalid status transition: " ++ prev ++ " -> " ++ tgt) := by
      fin_cases hprev <;> fin_cases htgt <;>
        first
          | exact absurd (by decide) hpair
          | simp [updateApplicationStatus, ALLOWED_STATUSES, TRANSITION_KEYS,
                  allowedTransitionsFrom, STATUS_SUBMITTED, STATUS_REJECTED_PRE,
                  STATUS_IN_PROGRESS, STATUS_REJECTED_POST, STATUS_OFFER]
    exact ⟨herr, applyUpdateStatus_error_frame db applicationId tgt ⟨prev, tsPrev⟩ tech _ hdb herr⟩
  · intro r h
    fin_cases hprev <;> fin_cases htgt <;>
      first
        | decide
        | (simp [updateApplicationStatus, ALLOWED_STATUSES, TRANSITION_KEYS,
                 allowedTransitionsFrom, STATUS_SUBMITTED, STATUS_REJECTED_PRE,
                 STATUS_IN_PROGRESS, STATUS_REJECTED_POST, STATUS_OFFER] at h)

/-- Witness for C2: the direct submitted → offer attempt is rejected with the
invalid-transition error and leaves the database untouched. -/
theorem updateApplicationStatus_only_allowed_transitions_witness :
    updateApplicationStatus ⟨STATUS_SUBMITTED, none⟩ STATUS_OFFER none
        = .error ("Invalid status transition: " ++ STATUS_SUBMITTED ++ " -> " ++ STATUS_OFFER)
      ∧ (applyUpdateStatus (fun _ => some ⟨STATUS_SUBMITTED, none⟩) "app-1" STATUS_OFFER none).1
          = (fun _ => some ⟨STATUS_SUBMITTED, none⟩) :=
  (updateApplicationStatus_only_allowed_transitions
      (fun _ => some ⟨STATUS_SUBMITTED, none⟩) "app-1" none none
      STATUS_SUBMITTED STATUS_OFFER rfl (by decide) (by decide)).1 (by decide)

/-- C5: entering rejected_post_interview or offer requires an integer
technical score in [1, 10]: with the score absent or out of range the
transition fails with the corresponding validation error and the database
is unchanged; a successful transition into any other target state stores
the technical score as absent. -/
theorem updateApplicationStatus_technical_score_gate
    (db : AppDb) (applicationId : String) (tsPrev : Option ℤ) (t : ℤ) (tech : Option ℤ)
    (hdb : db applicationId = some ⟨STATUS_IN_PROGRESS, tsPrev⟩) :
    (updateApplicationStatus ⟨STATUS_IN_PROGRESS, tsPrev⟩ STATUS_OFFER none
        = .error "technical_score is required for this status"
      ∧ (applyUpdateStatus db applicationId STATUS_OFFER none).1 = db) ∧
    (updateApplicationStatus ⟨STATUS_IN_PROGRESS, tsPrev⟩ STATUS_REJECTED_POST none
        = .error "technical_score is required for this status") ∧
    ((t < 1 ∨ 10 < t) →
      updateApplicationStatus ⟨STATUS_IN_PROGRESS, tsPrev⟩ STATUS_OFFER (some t)
          = .error "technical_score must be between 1 and 10"
        ∧ updateApplicationStatus ⟨STATUS_IN_PROGRESS, tsPrev⟩ STATUS_REJECTED_POST (some t)
            = .error "technical_score must be between 1 and 10"
        ∧ (applyUpdateStatus db applicationId STATUS_OFFER (some t)).1 = db) ∧
    (1 ≤ t → t ≤ 10 →
      updateApplicationStatus ⟨STATUS_IN_PROGRESS, tsPrev⟩ STATUS_OFFER (some t)
          = .ok ⟨STATUS_OFFER, some t⟩) ∧
    (updateApplicationStatus ⟨STATUS_SUBMITTED, tsPrev⟩ STATUS_IN_PROGRESS tech
        = .ok ⟨STATUS_IN_PROGRESS, none⟩) ∧
    (updateApplicationStatus ⟨STATUS_SUBMITTED, tsPrev⟩ STATUS_REJECTED_PRE tech
        = .ok ⟨STATUS_REJECTED_PRE, none⟩) := by
  have hmiss : updateApplicationStatus ⟨STATUS_IN_PROGRESS, tsPrev⟩ STATUS_OFFER none
      = .error "technical_score is required for this status" := by
    simp [updateApplicationStatus, ALLOWED_STATUSES, TRANSITION_KEYS,
          allowedTransitionsFrom, STATUS_SUBMITTED, STATUS_REJECTED_PRE,
          STATUS_IN_PROGRESS, STATUS_REJECTED_POST, STATUS_OFFER]
  refine ⟨⟨hmiss, applyUpdateStatus_error_frame db applicationId STATUS_OFFER _ none _ hdb hmiss⟩,
      ?_, ?_, ?_, ?_, ?_⟩
  · simp [updateApplicationStatus, ALLOWED_STATUSES, TRANSITION_KEYS,
          allowedTransitionsFrom, STATUS_SUBMITTED, STATUS_REJECTED_PRE,
          STATUS_IN_PROGRESS, STATUS_REJECTED_POST, STATUS_OFFER]
  · intro hrange
    have hbad : updateApplicationStatus ⟨STATUS_IN_PROGRESS, tsPrev⟩ STATUS_OFFER (some t)
        = .error "technical_score must be between 1 and 10" := by
      simp [updateApplicationStatus, ALLOWED_STATUSES, TRANSITION_KEYS,
            allowedTransitionsFrom, STATUS_SUBMITTED, STATUS_REJECTED_PRE,
            STATUS_IN_PROGRESS, STATUS_REJECTED_POST, STATUS_OFFER, hrange]
    refine ⟨hbad, ?_, applyUpdateStatus_error_frame db applicationId STATUS_OFFER _ (some t) _ hdb hbad⟩
    simp [updateApplicationStatus, ALLOWED_STATUSES, TRANSITION_KEYS,
          allowedTransitionsFrom, STATUS_SUBMITTED, STATUS_REJECTED_PRE,
          STATUS_IN_PROGRESS, STATUS_REJECTED_POST, STATUS_OFFER, hrange]
  · intro h1 h10
    simp [updateApplicationStatus, ALLOWED_STATUSES, TRANSITION_KEYS,
          allowedTransitionsFrom, STATUS_SUBMITTED, STATUS_REJECTED_PRE,
          STATUS_IN_PROGRESS, STATUS_REJECTED_POST, STATUS_OFFER,
          not_lt.mpr h1, not_lt.mpr h10]
  · simp [updateApplicationStatus, ALLOWED_STATUSES, TRANSITION_KEYS,
          allowedTransitionsFrom, STATUS_SUBMITTED, STATUS_REJECTED_PRE,
          STATUS_IN_PROGRESS, STATUS_REJECTED_POST, STATUS_OFFER]
  · simp [updateApplicationStatus, ALLOWED_STATUSES, TRANSITION_KEYS,
          allowedTransitionsFrom, STATUS_SUBMITTED, STATUS_REJECTED_PRE,
          STATUS_IN_PROGRESS, STATUS_REJECTED_POST, STATUS_OFFER]

/-- Witness for C5: offer with a missing technical score, and offer with
technical score 11, are both rejected; a valid score 7 succeeds. -/
theorem updateApplicationStatus_technical_score_gate_witness :
    (updateApplicationStatus ⟨STATUS_IN_PROGRESS, none⟩ STATUS_OFFER none
        = .error "technical_score is required for this status")
      ∧ (updateApplicationStatus ⟨STATUS_IN_PROGRESS, none⟩ STATUS_OFFER (some 11)
          = .error "technical_score must be between 1 and 10")
      ∧ (updateApplicationStatus ⟨STATUS_IN_PROGRESS, none⟩ STATUS_OFFER (some 7)
          = .ok ⟨STATUS_OFFER, some 7⟩) :=
  have h := updateApplicationStatus_technical_score_gate
      (fun _ => some ⟨STATUS_IN_PROGRESS, none⟩) "app-1" none 11 none rfl
  have h7 := updateApplicationStatus_technical_score_gate
      (fun _ => some ⟨STATUS_IN_PROGRESS, none⟩) "app-1" none 7 none rfl
  ⟨h.1.1, (h.2.2.1 (by decide)).1, h7.2.2.2.1 (by decide) (by decide)⟩

/- ============================================================
   Hybrid scoring blend
   backend/services/company.py lines 166-172 and 1109-1202
   ============================================================ -/

/-- Python round() on a rational: round half to even (banker's rounding),
as used by int(round(x)) in _score_single_batch. -/
def pyRound (q : ℚ) : ℤ :=
  if q - ⌊q⌋ < 1/2 then ⌊q⌋
  else if (1 : ℚ)/2 < q - ⌊q⌋ then ⌊q⌋ + 1
  else if ⌊q⌋ % 2 = 0 then ⌊q⌋ else ⌊q⌋ + 1

lemma pyRound_intCast (m : ℤ) : pyRound (m : ℚ) = m := by
  norm_num [pyRound]

lemma pyRound_bounds (q : ℚ) (B : ℤ) (h0 : 0 ≤ q) (hB : q ≤ (B : ℚ)) :
    0 ≤ pyRound q ∧ pyRound q ≤ B := by
  have hf0 : 0 ≤ ⌊q⌋ := Int.floor_nonneg.mpr h0
  have hfB : ⌊q⌋ ≤ B := by
    have h := Int.floor_le_floor hB
    simpa using h
  have hfloor : (⌊q⌋ : ℚ) ≤ q := Int.floor_le q
  have hstep : ¬(q - ⌊q⌋ < 1/2) → ⌊q⌋ + 1 ≤ B := by
    intro hge
    have h1 : (⌊q⌋ : ℚ) + 1/2 ≤ q := by linarith [not_lt.mp hge]
    have h2 : (⌊q⌋ : ℚ) < (B : ℚ) := by linarith
    exact_mod_cast Int.add_one_le_iff.mpr (by exact_mod_cast h2)
  unfold pyRound
  split_ifs with h1 h2 h3
  · exact ⟨hf0, hfB⟩
  · exact ⟨by omega, hstep h1⟩
  · exact ⟨hf0, hfB⟩
  · exact ⟨by omega, hstep h1⟩

/-- Model of the function cosine to unit interval in
backend/services/company.py lines 166-168: clamp to [-1, 1] then map
through (x + 1) / 2. -/
def cosineToUnitInterval (score : ℚ) : ℚ := (max (-1) (min 1 score) + 1) / 2

/-- Per-candidate score persistence arithmetic from _score_single_batch
(backend/services/company.py lines 1151-1178): clamp the oracle score to
[0, 100], convert to a fraction, optionally average with the two-tower
cosine score mapped to [0, 1], clamp to [0, 1] and round to an integer
percentage. The cosine argument is the dot product of the stored unit
vectors when both are available, and absent otherwise. -/
def scoreSingle (oracleScore : ℤ) (cosine : Option ℚ) : ℤ :=
  let gptScore : ℤ := max 0 (min 100 oracleScore)
  let gptScore01 : ℚ := (gptScore : ℚ) / 100
  let twoTowerScore01 : Option ℚ := cosine.map cosineToUnitInterval
  let finalScore01 : ℚ :=
    match twoTowerScore01 with
    | none => gptScore01
    | some t => (gptScore01 + t) / 2
  pyRound (max 0 (min 1 finalScore01) * 100)

/-- C3: with both vectors available, the persisted fit score is exactly
round(100 · ((oracle/100) + (clamp(cos, -1, 1) + 1)/2) / 2); with the
embedding score unavailable it is the clamped oracle score alone; in both
cases the result is an integer in [0, 100]. -/
theorem scoreSingle_blend_formula (o : ℤ) (c : ℚ) :
    scoreSingle o (some c)
        = pyRound (100 * (((max 0 (min 100 o) : ℤ) : ℚ) / 100
            + (max (-1) (min 1 c) + 1) / 2) / 2)
      ∧ scoreSingle o none = max 0 (min 100 o)
      ∧ (0 ≤ scoreSingle o (some c) ∧ scoreSingle o (some c) ≤ 100)
      ∧ (0 ≤ scoreSingle o none ∧ scoreSingle o none ≤ 100) := by
  have hg0 : (0 : ℤ) ≤ max 0 (min 100 o) := le_max_left _ _
  have hg100 : max 0 (min 100 o) ≤ 100 := by omega
  have hgq0 : (0 : ℚ) ≤ ((max 0 (min 100 o) : ℤ) : ℚ) := by exact_mod_cast hg0
  have hgq100 : ((max 0 (min 100 o) : ℤ) : ℚ) ≤ 100 := by exact_mod_cast hg100
  have hg01 : (0 : ℚ) ≤ ((max 0 (min 100 o) : ℤ) : ℚ) / 100 ∧
      ((max 0 (min 100 o) : ℤ) : ℚ) / 100 ≤ 1 := by
    constructor <;> [positivity; linarith]
  have ht0 : (0 : ℚ) ≤ cosineToUnitInterval c := by
    have : (-1 : ℚ) ≤ max (-1) (min 1 c) := le_max_left _ _
    unfold cosineToUnitInterval
    linarith
  have ht1 : cosineToUnitInterval c ≤ 1 := by
    have h1 : min 1 c ≤ 1 := min_le_left _ _
    have : max (-1) (min 1 c) ≤ 1 := max_le (by norm_num) h1
    unfold cosineToUnitInterval
    linarith
  have hfin0 : (0 : ℚ) ≤ (((max 0 (min 100 o) : ℤ) : ℚ) / 100 + cosineToUnitInterval c) / 2 := by
    have := hg01.1
    linarith
  have hfin1 : (((max 0 (min 100 o) : ℤ) : ℚ) / 100 + cosineToUnitInterval c) / 2 ≤ 1 := by
    have := hg01.2
    linarith
  have hclampS : max 0 (min 1 ((((max 0 (min 100 o) : ℤ) : ℚ) / 100 + cosineToUnitInterval c) / 2))
      = (((max 0 (min 100 o) : ℤ) : ℚ) / 100 + cosineToUnitInterval c) / 2 := by
    rw [min_eq_right hfin1, max_eq_right hfin0]
  have hclampN : max 0 (min 1 (((max 0 (min 100 o) : ℤ) : ℚ) / 100))
      = ((max 0 (min 100 o) : ℤ) : ℚ) / 100 := by
    rw [min_eq_right hg01.2, max_eq_right hg01.1]
  have hsome : scoreSingle o (some c)
      = pyRound ((((max 0 (min 100 o) : ℤ) : ℚ) / 100 + cosineToUnitInterval c) / 2 * 100) := by
    simp only [scoreSingle, Option.map_some']
    rw [hclampS]
  have hnone : scoreSingle o none = max 0 (min 100 o) := by
    simp only [scoreSingle, Option.map_none']
    rw [hclampN]
    have : ((max 0 (min 100 o) : ℤ) : ℚ) / 100 * 100 = ((max 0 (min 100 o) : ℤ) : ℚ) := by
      field_simp
    rw [this, pyRound_intCast]
  refine ⟨?_, hnone, ?_, ?_⟩
  · rw [hsome]
    congr 1
    unfold cosineToUnitInterval
    ring
  · rw [hsome]
    have hb := pyRound_bounds
        ((((max 0 (min 100 o) : ℤ) : ℚ) / 100 + cosineToUnitInterval c) / 2 * 100) 100
        (by positivity)
        (by
          have h100 : ((100 : ℤ) : ℚ) = 100 := by norm_num
          rw [h100]
          linarith [hfin1])
    exact hb
  · rw [hnone]
    exact ⟨hg0, hg100⟩

/- ============================================================
   Interaction nudger: pull / push
   two-tower/embedding_updates.py lines 36-49, 52-60, 154-202
   ============================================================ -/

lemma dotV_expand {n : ℕ} (a b : Vec n) (x y z w : ℝ) :
    dotV (fun i => x * a i + y * b i) (fun i => z * a i + w * b i)
      = x * z * dotV a a + (x * w + y * z) * dotV a b + y * w * dotV b b := by
  unfold dotV
  rw [Finset.mul_sum, Finset.mul_sum, Finset.mul_sum, ← Finset.sum_add_distrib,
    ← Finset.sum_add_distrib]
  exact Finset.sum_congr rfl fun i _ => by ring

lemma dotV_smul_left {n : ℕ} (c : ℝ) (a b : Vec n) :
    dotV (fun i => c * a i) b = c * dotV a b := by
  unfold dotV
  rw [Finset.mul_sum]
  exact Finset.sum_congr rfl fun i _ => by ring

lemma dotV_smul_right {n : ℕ} (c : ℝ) (a b : Vec n) :
    dotV a (fun i => c * b i) = c * dotV a b := by
  unfold dotV
  rw [Finset.mul_sum]
  exact Finset.sum_congr rfl fun i _ => by ring

lemma normV_smul {n : ℕ} (c : ℝ) (hc : 0 ≤ c) (v : Vec n) :
    normV (fun i => c * v i) = c * normV v := by
  unfold normV
  rw [show dotV (fun i => c * v i) (fun i => c * v i) = c ^ 2 * dotV v v by
        rw [dotV_smul_left, dotV_smul_right]; ring,
    Real.sqrt_mul (sq_nonneg c), Real.sqrt_sq hc]

/-- Cosine similarity between two vectors, the quantity the spec tracks
across nudges (computed in the source as the dot product of the unit
vectors read from the store). -/
noncomputable def cosSim {n : ℕ} (a b : Vec n) : ℝ := dotV a b / (normV a * normV b)

lemma cosSim_smul_left {n : ℕ} (c : ℝ) (hc : 0 < c) (a b : Vec n) :
    cosSim (fun i => c * a i) b = cosSim a b := by
  unfold cosSim
  rw [dotV_smul_left, normV_smul c hc.le,
    show c * normV a * normV b = c * (normV a * normV b) by ring,
    mul_div_mul_left _ _ (ne_of_gt hc)]

lemma cosSim_smul_right {n : ℕ} (c : ℝ) (hc : 0 < c) (a b : Vec n) :
    cosSim a (fun i => c * b i) = cosSim a b := by
  unfold cosSim
  rw [dotV_smul_right, normV_smul c hc.le,
    show normV a * (c * normV b) = c * (normV a * normV b) by ring,
    mul_div_mul_left _ _ (ne_of_gt hc)]

lemma normalizeVec_eq_smul {n : ℕ} (v : Vec n) (h : ¬ normV v ≤ EPS) :
    normalizeVec v = fun i => (normV v)⁻¹ * v i := by
  unfold normalizeVec
  rw [if_neg h]
  funext i
  rw [div_eq_inv_mul]

/-- Cosine similarity is invariant under the store's normalization (either
branch of normalize rescales by a positive factor or leaves the vector
unchanged). -/
lemma cosSim_normalizeVec {n : ℕ} (u v : Vec n) :
    cosSim (normalizeVec u) (normalizeVec v) = cosSim u v := by
  have hinv : ∀ w : Vec n, ¬ normV w ≤ EPS → 0 < (normV w)⁻¹ := fun w hw =>
    inv_pos.mpr (lt_trans EPS_pos (lt_of_not_le hw))
  by_cases hu : normV u ≤ EPS <;> by_cases hv : normV v ≤ EPS
  · unfold normalizeVec
    rw [if_pos hu, if_pos hv]
  · rw [normalizeVec_eq_smul v hv, show normalizeVec u = u by unfold normalizeVec; rw [if_pos hu],
      cosSim_smul_right _ (hinv v hv)]
  · rw [normalizeVec_eq_smul u hu, show normalizeVec v = v by unfold normalizeVec; rw [if_pos hv],
      cosSim_smul_left _ (hinv u hu)]
  · rw [normalizeVec_eq_smul u hu, normalizeVec_eq_smul v hv,
      cosSim_smul_left _ (hinv u hu), cosSim_smul_right _ (hinv v hv)]

lemma normV_of_unit {n : ℕ} {v : Vec n} (h : dotV v v = 1) : normV v = 1 := by
  rw [normV, h, Real.sqrt_one]

lemma normalizeVec_of_unit {n : ℕ} {v : Vec n} (h : dotV v v = 1) :
    normalizeVec v = v := by
  unfold normalizeVec
  rw [normV_of_unit h, if_neg (by norm_num [EPS])]
  funext i
  rw [div_one]

lemma cosSim_of_units {n : ℕ} {a b : Vec n} (ha : dotV a a = 1) (hb : dotV b b = 1) :
    cosSim a b = dotV a b := by
  rw [cosSim, normV_of_unit ha, normV_of_unit hb, mul_one, div_one]

/-- Model of pull (two-tower/embedding_updates.py lines 36-41). -/
noncomputable def pullPair {n : ℕ} (a b : Vec n) (strength : ℝ) : Vec n × Vec n :=
  (normalizeVec fun i => (1 - strength) * a i + strength * b i,
   normalizeVec fun i => (1 - strength) * b i + strength * a i)

/-- Model of push (two-tower/embedding_updates.py lines 44-49). -/
noncomputable def pushPair {n : ℕ} (a b : Vec n) (strength : ℝ) : Vec n × Vec n :=
  (normalizeVec fun i => a i + strength * (a i - b i),
   normalizeVec fun i => b i - strength * (a i - b i))

/-- Default feedback_max_strength from UpdateConfig
(two-tower/embedding_updates.py line 57). -/
noncomputable def feedbackMaxStrength : ℝ := 0.20

/-- Direction of a nudge. -/
inductive NudgeMode
  | pull
  | push

/-- Model of the pair update method (two-tower/embedding_updates.py lines
154-171): return unchanged for nonpositive strength, clamp the strength to
[0, 1], pull or push the stored user/job vectors, then save both sides
(saving renormalizes each vector). -/
noncomputable def updatePair {n : ℕ} (mode : NudgeMode) (strength : ℝ)
    (userVec jobVec : Vec n) : Vec n × Vec n :=
  if strength ≤ 0 then (userVec, jobVec)
  else
    let k := max 0 (min 1 strength)
    let p :=
      match mode with
      | .pull => pullPair userVec jobVec k
      | .push => pushPair userVec jobVec k
    (normalizeVec p.1, normalizeVec p.2)

/-- Nudge strength derived from a company feedback score
(two-tower/embedding_updates.py lines 195-200): clamp the score to [0, 10]
and scale the distance from the neutral 5 by feedback_max_strength / 5. -/
noncomputable def feedbackStrength (scoreOutOf10 : ℝ) : ℝ :=
  |max 0 (min 10 scoreOutOf10) - 5| / 5 * feedbackMaxStrength

/-- Model of on_company_feedback_score (two-tower/embedding_updates.py
lines 185-202) acting on the stored (user, job) vector pair. -/
noncomputable def onCompanyFeedbackScore {n : ℕ} (scoreOutOf10 : ℝ)
    (userVec jobVec : Vec n) : Vec n × Vec n :=
  let score := max 0 (min 10 scoreOutOf10)
  let centered := score - 5
  if centered = 0 then (userVec, jobVec)
  else
    updatePair (if 0 < centered then .pull else .push) (|centered| / 5 * feedbackMaxStrength)
      userVec jobVec

/-- C6: feedback score 5 leaves both stored vectors unchanged; scores above
5 pull and scores below 5 push with strength (|s-5|/5) · 0.20, which is
strictly monotone in the distance from 5 and reaches 0.20 at the extremes
0 and 10. -/
theorem onCompanyFeedbackScore_cases {n : ℕ} (userVec jobVec : Vec n) (s t : ℝ) :
    (onCompanyFeedbackScore 5 userVec jobVec = (userVec, jobVec)) ∧
    (5 < s → s ≤ 10 →
      onCompanyFeedbackScore s userVec jobVec
        = updatePair .pull (feedbackStrength s) userVec jobVec) ∧
    (0 ≤ s → s < 5 →
      onCompanyFeedbackScore s userVec jobVec
        = updatePair .push (feedbackStrength s) userVec jobVec) ∧
    (0 ≤ s → s ≤ 10 → feedbackStrength s = |s - 5| / 5 * feedbackMaxStrength) ∧
    (0 ≤ s → s ≤ 10 → 0 ≤ t → t ≤ 10 → |s - 5| < |t - 5| →
      feedbackStrength s < feedbackStrength t) ∧
    feedbackStrength 10 = feedbackMaxStrength ∧
    feedbackStrength 0 = feedbackMaxStrength := by
  have hclamp : ∀ x : ℝ, 0 ≤ x → x ≤ 10 → max 0 (min 10 x) = x := by
    intro x h0 h10
    rw [min_eq_right h10, max_eq_right h0]
  refine ⟨?_, ?_, ?_, ?_, ?_, ?_, ?_⟩
  · unfold onCompanyFeedbackScore
    norm_num
  · intro h5 h10
    unfold onCompanyFeedbackScore feedbackStrength
    rw [hclamp s (by linarith) h10]
    rw [if_neg (by intro h; linarith [sub_eq_zero.mp h]), if_pos (by linarith)]
  · intro h0 h5
    unfold onCompanyFeedbackScore feedbackStrength
    rw [hclamp s h0 (by linarith)]
    rw [if_neg (by intro h; linarith [sub_eq_zero.mp h]), if_neg (by intro h; linarith)]
  · intro h0 h10
    unfold feedbackStrength
    rw [hclamp s h0 h10]
  · intro hs0 hs10 ht0 ht10 habs
    unfold feedbackStrength
    rw [hclamp s hs0 hs10, hclamp t ht0 ht10]
    have hfm : feedbackMaxStrength = 0.20 := rfl
    rw [hfm]
    have h5 : |s - 5| / 5 < |t - 5| / 5 := by linarith
    nlinarith [abs_nonneg (s - 5), abs_nonneg (t - 5)]
  · unfold feedbackStrength
    norm_num
  · unfold feedbackStrength
    norm_num

/-- Witness for C6: at score 5 the pair (e, e) is unchanged; the strength
at score 7 is strictly below the strength at score 9. -/
theorem onCompanyFeedbackScore_cases_witness :
    (onCompanyFeedbackScore 5 (fun _ : Fin 1 => (1 : ℝ)) (fun _ : Fin 1 => (1 : ℝ))
        = (fun _ : Fin 1 => (1 : ℝ), fun _ : Fin 1 => (1 : ℝ))) ∧
    feedbackStrength 7 < feedbackStrength 9 :=
  have h := onCompanyFeedbackScore_cases (fun _ : Fin 1 => (1 : ℝ)) (fun _ : Fin 1 => (1 : ℝ)) 7 9
  ⟨h.1, h.2.2.2.2.1 (by norm_num) (by norm_num) (by norm_num) (by norm_num)
      (by
        rw [show (7 : ℝ) - 5 = 2 by norm_num, show (9 : ℝ) - 5 = 4 by norm_num,
          abs_of_nonneg (by norm_num : (0 : ℝ) ≤ 2), abs_of_nonneg (by norm_num : (0 : ℝ) ≤ 4)]
        norm_num)⟩

/-- C4 (amended): for unit vectors whose cosine is strictly between -1 and
1 (the pair is not parallel), pulling with clamped strength 0 < k < 1
strictly increases the cosine similarity of the pair, and pushing with any
strength k > 0 strictly decreases it. -/
theorem pull_increases_push_decreases_cosine {n : ℕ} (a b : Vec n) (k : ℝ)
    (ha : dotV a a = 1) (hb : dotV b b = 1)
    (hlow : -1 < dotV a b) (hhigh : dotV a b < 1) :
    (0 < k → k < 1 →
      cosSim a b < cosSim (pullPair a b k).1 (pullPair a b k).2) ∧
    (0 < k →
      cosSim (pushPair a b k).1 (pushPair a b k).2 < cosSim a b) := by
  set c := dotV a b with hc
  have hcos : cosSim a b = c := cosSim_of_units ha hb
  constructor
  · intro hk0 hk1
    have hfu : (pullPair a b k).1 = normalizeVec (fun i => (1 - k) * a i + k * b i) := rfl
    have hfv : (pullPair a b k).2 = normalizeVec (fun i => (1 - k) * b i + k * a i) := rfl
    have hvswap : (fun i => (1 - k) * b i + k * a i) = (fun i => k * a i + (1 - k) * b i) := by
      funext i
      ring
    rw [hfu, hfv, hvswap, cosSim_normalizeVec]
    have hduv : dotV (fun i => (1 - k) * a i + k * b i) (fun i => k * a i + (1 - k) * b i)
        = 2 * k * (1 - k) + ((1 - k) ^ 2 + k ^ 2) * c := by
      rw [dotV_expand a b (1 - k) k k (1 - k), ha, hb, ← hc]
      ring
    have hduu : dotV (fun i => (1 - k) * a i + k * b i) (fun i => (1 - k) * a i + k * b i)
        = (1 - k) ^ 2 + k ^ 2 + 2 * k * (1 - k) * c := by
      rw [dotV_expand a b (1 - k) k (1 - k) k, ha, hb, ← hc]
      ring
    have hdvv : dotV (fun i => k * a i + (1 - k) * b i) (fun i => k * a i + (1 - k) * b i)
        = (1 - k) ^ 2 + k ^ 2 + 2 * k * (1 - k) * c := by
      rw [dotV_expand a b k (1 - k) k (1 - k), ha, hb, ← hc]
      ring
    have hD : 0 < (1 - k) ^ 2 + k ^ 2 + 2 * k * (1 - k) * c := by
      nlinarith [sq_nonneg (1 - 2 * k),
        mul_pos (mul_pos hk0 (by linarith : (0 : ℝ) < 1 - k)) (by linarith : (0 : ℝ) < 1 + c)]
    have hprod : normV (fun i => (1 - k) * a i + k * b i)
          * normV (fun i => k * a i + (1 - k) * b i)
        = (1 - k) ^ 2 + k ^ 2 + 2 * k * (1 - k) * c := by
      unfold normV
      rw [hduu, hdvv]
      exact Real.mul_self_sqrt hD.le
    have hcos2 : cosSim (fun i => (1 - k) * a i + k * b i) (fun i => k * a i + (1 - k) * b i)
        = (2 * k * (1 - k) + ((1 - k) ^ 2 + k ^ 2) * c)
            / ((1 - k) ^ 2 + k ^ 2 + 2 * k * (1 - k) * c) := by
      unfold cosSim
      rw [hduv, hprod]
    rw [hcos2, hcos, lt_div_iff hD]
    nlinarith [mul_pos (mul_pos hk0 (by linarith : (0 : ℝ) < 1 - k))
        (mul_pos (by linarith : (0 : ℝ) < 1 - c) (by linarith : (0 : ℝ) < 1 + c))]
  · intro hk0
    have hfu : (pushPair a b k).1 = normalizeVec (fun i => a i + k * (a i - b i)) := rfl
    have hfv : (pushPair a b k).2 = normalizeVec (fun i => b i - k * (a i - b i)) := rfl
    have huswap : (fun i => a i + k * (a i - b i)) = (fun i => (1 + k) * a i + (-k) * b i) := by
      funext i
      ring
    have hvswap : (fun i => b i - k * (a i - b i)) = (fun i => (-k) * a i + (1 + k) * b i) := by
      funext i
      ring
    rw [hfu, hfv, huswap, hvswap, cosSim_normalizeVec]
    have hduv : dotV (fun i => (1 + k) * a i + (-k) * b i) (fun i => (-k) * a i + (1 + k) * b i)
        = -(2 * k * (1 + k)) + ((1 + k) ^ 2 + k ^ 2) * c := by
      rw [dotV_expand a b (1 + k) (-k) (-k) (1 + k), ha, hb, ← hc]
      ring
    have hduu : dotV (fun i => (1 + k) * a i + (-k) * b i) (fun i => (1 + k) * a i + (-k) * b i)
        = (1 + k) ^ 2 + k ^ 2 - 2 * k * (1 + k) * c := by
      rw [dotV_expand a b (1 + k) (-k) (1 + k) (-k), ha, hb, ← hc]
      ring
    have hdvv : dotV (fun i => (-k) * a i + (1 + k) * b i) (fun i => (-k) * a i + (1 + k) * b i)
        = (1 + k) ^ 2 + k ^ 2 - 2 * k * (1 + k) * c := by
      rw [dotV_expand a b (-k) (1 + k) (-k) (1 + k), ha, hb, ← hc]
      ring
    have hD : 0 < (1 + k) ^ 2 + k ^ 2 - 2 * k * (1 + k) * c := by
      nlinarith [mul_pos (mul_pos hk0 (by linarith : (0 : ℝ) < 1 + k))
        (by linarith : (0 : ℝ) < 1 - c)]
    have hprod : normV (fun i => (1 + k) * a i + (-k) * b i)
          * normV (fun i => (-k) * a i + (1 + k) * b i)
        = (1 + k) ^ 2 + k ^ 2 - 2 * k * (1 + k) * c := by
      unfold normV
      rw [hduu, hdvv]
      exact Real.mul_self_sqrt hD.le
    have hcos2 : cosSim (fun i => (1 + k) * a i + (-k) * b i) (fun i => (-k) * a i + (1 + k) * b i)
        = (-(2 * k * (1 + k)) + ((1 + k) ^ 2 + k ^ 2) * c)
            / ((1 + k) ^ 2 + k ^ 2 - 2 * k * (1 + k) * c) := by
      unfold cosSim
      rw [hduv, hprod]
    rw [hcos2, hcos, div_lt_iff hD]
    nlinarith [mul_pos (mul_pos hk0 (by linarith : (0 : ℝ) < 1 + k))
        (mul_pos (by linarith : (0 : ℝ) < 1 - c) (by linarith : (0 : ℝ) < 1 + c))]

/-- First standard basis vector of the plane. -/
def e0two : Vec 2 := ![1, 0]

/-- Second standard basis vector of the plane. -/
def e1two : Vec 2 := ![0, 1]

lemma dotV_e0two_e0two : dotV e0two e0two = 1 := by
  norm_num [dotV, e0two, Fin.sum_univ_two]

lemma dotV_e1two_e1two : dotV e1two e1two = 1 := by
  norm_num [dotV, e1two, Fin.sum_univ_two]

lemma dotV_e0two_e1two : dotV e0two e1two = 0 := by
  norm_num [dotV, e0two, e1two, Fin.sum_univ_two]

lemma dotV_e1two_e0two : dotV e1two e0two = 0 := by
  norm_num [dotV, e0two, e1two, Fin.sum_univ_two]

/-- Counterexample for C4 as stated: for the equal unit pair a = b the pull
update leaves the cosine at 1 (no strict increase) and the push update
leaves it at 1 (no strict decrease); and for the orthogonal unit pair with
strength k = 1 the pull update merely swaps the vectors, leaving the
cosine at 0 (no strict increase). -/
theorem pull_push_strictness_counterexample :
    dotV e0two e0two = 1 ∧ dotV e1two e1two = 1 ∧ dotV e0two e1two = 0 ∧
    ¬ (cosSim e0two e0two
        < cosSim (pullPair e0two e0two (1 / 2)).1 (pullPair e0two e0two (1 / 2)).2) ∧
    ¬ (cosSim (pushPair e0two e0two (1 / 2)).1 (pushPair e0two e0two (1 / 2)).2
        < cosSim e0two e0two) ∧
    ¬ (cosSim e0two e1two
        < cosSim (pullPair e0two e1two 1).1 (pullPair e0two e1two 1).2) := by
  have hu := dotV_e0two_e0two
  have hv := dotV_e1two_e1two
  have hpull1 : (fun i => (1 - (1 / 2 : ℝ)) * e0two i + (1 / 2) * e0two i) = e0two := by
    funext i
    ring
  have hpush1 : (fun i => e0two i + (1 / 2 : ℝ) * (e0two i - e0two i)) = e0two := by
    funext i
    ring
  have hpull2 : (fun i => (1 - (1 : ℝ)) * e0two i + 1 * e1two i) = e1two := by
    funext i
    ring
  have hpull3 : (fun i => (1 - (1 : ℝ)) * e1two i + 1 * e0two i) = e0two := by
    funext i
    ring
  have hne0 : normalizeVec e0two = e0two := normalizeVec_of_unit hu
  have hne1 : normalizeVec e1two = e1two := normalizeVec_of_unit hv
  refine ⟨hu, hv, dotV_e0two_e1two, ?_, ?_, ?_⟩
  · show ¬ (cosSim e0two e0two
        < cosSim (normalizeVec fun i => (1 - (1 / 2 : ℝ)) * e0two i + (1 / 2) * e0two i)
            (normalizeVec fun i => (1 - (1 / 2 : ℝ)) * e0two i + (1 / 2) * e0two i))
    rw [hpull1, hne0]
    exact lt_irrefl _
  · show ¬ (cosSim (normalizeVec fun i => e0two i + (1 / 2 : ℝ) * (e0two i - e0two i))
        (normalizeVec fun i => e0two i - (1 / 2 : ℝ) * (e0two i - e0two i)) < cosSim e0two e0two)
    have hpush2 : (fun i => e0two i - (1 / 2 : ℝ) * (e0two i - e0two i)) = e0two := by
      funext i
      ring
    rw [hpush1, hpush2, hne0]
    exact lt_irrefl _
  · show ¬ (cosSim e0two e1two
        < cosSim (normalizeVec fun i => (1 - (1 : ℝ)) * e0two i + 1 * e1two i)
            (normalizeVec fun i => (1 - (1 : ℝ)) * e1two i + 1 * e0two i))
    rw [hpull2, hpull3, hne1, hne0,
      cosSim_of_units hu hv, cosSim_of_units hv hu, dotV_e0two_e1two, dotV_e1two_e0two]
    exact lt_irrefl _

/-- Witness for C4 (amended): the orthogonal unit pair with k = 1/2
satisfies every hypothesis; the pull strictly increases and the push
strictly decreases the cosine. -/
theorem pull_increases_push_decreases_cosine_witness :
    (cosSim e0two e1two
      < cosSim (pullPair e0two e1two (1 / 2)).1 (pullPair e0two e1two (1 / 2)).2) ∧
    (cosSim (pushPair e0two e1two (1 / 2)).1 (pushPair e0two e1two (1 / 2)).2
      < cosSim e0two e1two) :=
  have h := pull_increases_push_decreases_cosine e0two e1two (1 / 2)
      dotV_e0two_e0two dotV_e1two_e1two
      (by rw [dotV_e0two_e1two]; norm_num) (by rw [dotV_e0two_e1two]; norm_num)
  ⟨h.1 (by norm_num) (by norm_num), h.2 (by norm_num)⟩

/- ============================================================
   Vector store reads and writes
   two-tower/embedding_updates.py lines 76-94,
   two-tower/embedding_initializer.py lines 93-106 and 219-231
   ============================================================ -/

/-- One table of the vector store (job_vectors or user_vectors), id to raw
stored vector; metadata is irrelevant to the norm invariant. -/
def VStore (n : ℕ) := String → Option (Vec n)

/-- Read path: the vector getter of the updater, the table loader of the
initializer and the fetch helpers of the services all parse the stored
JSON and normalize before returning; a missing id is absent. -/
noncomputable def getVector {n : ℕ} (st : VStore n) (entityId : String) : Option (Vec n) :=
  (st entityId).map normalizeVec

/-- Nudge write path (the save helper, embedding_updates.py lines 86-94):
an UPDATE that persists the normalized vector; a missing id changes no
row. -/
noncomputable def saveVector {n : ℕ} (st : VStore n) (entityId : String) (v : Vec n) :
    VStore n :=
  fun k => if k = entityId then (st entityId).map fun _ => normalizeVec v else st k

/-- Cold-start write path (the upsert helper, embedding_initializer.py
lines 219-231): INSERT .. ON CONFLICT DO UPDATE of the normalized
vector. -/
noncomputable def upsertStore {n : ℕ} (st : VStore n) (entityId : String) (v : Vec n) :
    VStore n :=
  fun k => if k = entityId then some (normalizeVec v) else st k

/-- Store states reachable from the empty table through the two write
paths, with arbitrary payload vectors (the store-level writes accept any
vector and renormalize it themselves). -/
inductive ReachableStore {n : ℕ} : VStore n → Prop
  | empty : ReachableStore (fun _ => none)
  | upsert {st : VStore n} (entityId : String) (v : Vec n) :
      ReachableStore st → ReachableStore (upsertStore st entityId v)
  | save {st : VStore n} (entityId : String) (v : Vec n) :
      ReachableStore st → ReachableStore (saveVector st entityId v)

/-- C1 (amended): on every reachable store state, a vector read back is
either exactly unit-norm or degenerate with norm at most 1e-12 (or the
entity is absent). The claim as stated (norm ≈ 1 or absent) fails on the
reachable degenerate states exhibited in the counterexample. -/
theorem getVector_unit_or_degenerate {n : ℕ} (st : VStore n) (entityId : String) (v : Vec n)
    (hreach : ReachableStore st) (hget : getVector st entityId = some v) :
    normV v = 1 ∨ normV v ≤ EPS := by
  rcases hw : st entityId with _ | w
  · rw [getVector, hw] at hget
    simp at hget
  · rw [getVector, hw, Option.map_some'] at hget
    have hv : v = normalizeVec w := (Option.some.injEq _ _).mp hget |>.symm
    rw [hv]
    exact normV_normalizeVec w

/- ============================================================
   Cold-start composition
   two-tower/embedding_initializer.py lines 49-65, 174-217, 233-285
   ============================================================ -/

/-- Mean of a list of vectors along axis 0 (numpy mean). -/
noncomputable def vecMean {n : ℕ} (l : List (Vec n)) : Vec n :=
  fun j => (l.map fun v => v j).sum / l.length

/-- Model of the compose step (embedding_initializer.py lines 206-217):
weighted difference of the means of the selected closest and farthest
candidate vectors, then normalize. Out-of-range indices never occur in
the source; getD totalizes them with the zero vector. -/
noncomputable def composeVector {n : ℕ} (candidates : List (Vec n))
    (closestIdx farthestIdx : List ℕ) (posWeight negWeight : ℝ) : Vec n :=
  let cVecs := closestIdx.map fun i => candidates.getD i fun _ => 0
  let fVecs := farthestIdx.map fun i => candidates.getD i fun _ => 0
  normalizeVec fun j => posWeight * vecMean cVecs j - negWeight * vecMean fVecs j

/-- Model of the index sanitizer (embedding_initializer.py lines 53-65):
keep in-range indices, first occurrence only, in order. -/
def safeIndices (raw : List ℤ) (n : ℕ) : List ℕ :=
  raw.foldl
    (fun out x => if 0 ≤ x ∧ x < (n : ℤ) ∧ x.toNat ∉ out then out ++ [x.toNat] else out) []

/-- One padding pass of the closest/farthest fix-up: append unused indices
from the given order until the target length is reached, tracking used
indices. -/
def fillIndices (cur used : List ℕ) (target : ℕ) (order : List ℕ) : List ℕ × List ℕ :=
  order.foldl
    (fun acc i =>
      if acc.1.length < target ∧ i ∉ acc.2 then (acc.1 ++ [i], acc.2 ++ [i]) else acc)
    (cur, used)

/-- The enforce-5-plus-5-no-overlap fix-up of the ranker
(embedding_initializer.py lines 178-204): fill closest from the sanitized
closest list then ascending, then farthest from the sanitized farthest
list then descending. -/
def fixClosestFarthest (closest farthest : List ℕ) (n : ℕ) : List ℕ × List ℕ :=
  let step1 := fillIndices [] [] 5 closest
  let step2 := fillIndices step1.1 step1.2 5 (List.range n)
  let step3 := fillIndices [] step2.2 5 farthest
  let step4 := fillIndices step3.1 step3.2 5 (List.range n).reverse
  (step2.1, step4.1)

/-- Index post-processing of the closest/farthest ranker with the oracle
response mocked: the raw index lists are sanitized and padded. The prompt
construction and the API call only determine which raw lists come back,
so they are inputs here. -/
def llmRankClosestFarthest (rawClosest rawFarthest : List ℤ) (n : ℕ) : List ℕ × List ℕ :=
  fixClosestFarthest (safeIndices rawClosest n) (safeIndices rawFarthest n) n

/-- The vector persisted by initialize_new_job / initialize_new_user
(embedding_initializer.py lines 233-285) given the sampled candidate
sequence (the output of random.sample, which returns the selection in
random order) and the mocked oracle index lists: the composition of the
selected vectors, renormalized by the upsert. The entity payload reaches
only the oracle prompt and the stored metadata, never the vector. -/
noncomputable def initializeVector {n : ℕ} (sampled : List (Vec n))
    (rawClosest rawFarthest : List ℤ) (posWeight negWeight : ℝ) : Vec n :=
  let idx := llmRankClosestFarthest rawClosest rawFarthest sampled.length
  normalizeVec (composeVector sampled idx.1 idx.2 posWeight negWeight)

/-- C9 (amended): the persisted cold-start vector is a deterministic
function of the sampled candidate sequence and the mocked oracle output:
two runs that agree on the sample length and on the candidate vectors at
the selected closest/farthest indices persist the same vector, whatever
the payload and the rest of the pool. (It is not determined by the pool
as a set: random.sample returns the sample in random order, see the
counterexample.) -/
theorem initializeVector_deterministic {n : ℕ} (s1 s2 : List (Vec n))
    (rawClosest rawFarthest : List ℤ) (posWeight negWeight : ℝ)
    (hlen : s1.length = s2.length)
    (hsel : ∀ i ∈ (llmRankClosestFarthest rawClosest rawFarthest s1.length).1
        ++ (llmRankClosestFarthest rawClosest rawFarthest s1.length).2,
        s1.getD i (fun _ => 0) = s2.getD i (fun _ => 0)) :
    initializeVector s1 rawClosest rawFarthest posWeight negWeight
      = initializeVector s2 rawClosest rawFarthest posWeight negWeight := by
  have h1 : (llmRankClosestFarthest rawClosest rawFarthest s1.length).1.map
        (fun i => s1.getD i fun _ => 0)
      = (llmRankClosestFarthest rawClosest rawFarthest s1.length).1.map
        (fun i => s2.getD i fun _ => 0) :=
    List.map_congr_left fun i hi => hsel i (List.mem_append_left _ hi)
  have h2 : (llmRankClosestFarthest rawClosest rawFarthest s1.length).2.map
        (fun i => s1.getD i fun _ => 0)
      = (llmRankClosestFarthest rawClosest rawFarthest s1.length).2.map
        (fun i => s2.getD i fun _ => 0) :=
    List.map_congr_left fun i hi => hsel i (List.mem_append_right _ hi)
  simp only [initializeVector, composeVector, ← hlen]
  rw [h1, h2]

/-- Dimension-1 unit vector +1. -/
def onePos : Vec 1 := fun _ => 1

/-- Dimension-1 unit vector -1. -/
def oneNeg : Vec 1 := fun _ => -1

/-- The 10-vector pool for the determinism counterexample: five copies of
+1 followed by five copies of -1 (all unit, so loading the table returns
them unchanged). -/
def rowsC9 : List (Vec 1) :=
  [onePos, onePos, onePos, onePos, onePos, oneNeg, oneNeg, oneNeg, oneNeg, oneNeg]

lemma dotV_onePos : dotV onePos onePos = 1 := by
  norm_num [dotV, onePos]

lemma dotV_oneNeg : dotV oneNeg oneNeg = 1 := by
  norm_num [dotV, oneNeg]

lemma llmRank_fixed_ten :
    llmRankClosestFarthest [0, 1, 2, 3, 4] [5, 6, 7, 8, 9] 10
      = ([0, 1, 2, 3, 4], [5, 6, 7, 8, 9]) := by
  decide

lemma normalizeVec_const_one_dim {c : ℝ} (hc : EPS < c) :
    normalizeVec (fun _ : Fin 1 => c) = fun _ : Fin 1 => 1 := by
  have hc0 : 0 < c := EPS_pos.trans hc
  have hdot : dotV (fun _ : Fin 1 => c) (fun _ : Fin 1 => c) = c ^ 2 := by
    norm_num [dotV]
    ring
  have hnorm : normV (fun _ : Fin 1 => c) = c := by
    rw [normV, hdot, Real.sqrt_sq hc0.le]
  unfold normalizeVec
  rw [hnorm, if_neg (not_le.mpr hc)]
  funext j
  rw [div_self (ne_of_gt hc0)]

lemma normalizeVec_const_neg_one_dim {c : ℝ} (hc : c < -EPS) :
    normalizeVec (fun _ : Fin 1 => c) = fun _ : Fin 1 => -1 := by
  have hc0 : c < 0 := by linarith [EPS_pos]
  have hdot : dotV (fun _ : Fin 1 => c) (fun _ : Fin 1 => c) = (-c) ^ 2 := by
    norm_num [dotV]
    ring
  have hnorm : normV (fun _ : Fin 1 => c) = -c := by
    rw [normV, hdot, Real.sqrt_sq (by linarith)]
  unfold normalizeVec
  rw [hnorm, if_neg (not_le.mpr (by linarith))]
  funext j
  rw [div_eq_iff (by linarith : -c ≠ 0)]
  ring

/-- Counterexample for C9 as stated: the same ≥10 pool, the same payload
and the same mocked oracle indices can persist two different vectors,
because random.sample returns the sampled candidates in random order and
the oracle indices select positions in that order. Both orderings below
are permutations of the same 10-row pool. -/
theorem initializeVector_not_pool_deterministic_counterexample :
    rowsC9.length = 10 ∧
    rowsC9.reverse.Perm rowsC9 ∧
    initializeVector rowsC9 [0, 1, 2, 3, 4] [5, 6, 7, 8, 9] 1 (7 / 10)
      ≠ initializeVector rowsC9.reverse [0, 1, 2, 3, 4] [5, 6, 7, 8, 9] 1 (7 / 10) := by
  refine ⟨rfl, List.reverse_perm rowsC9, ?_⟩
  have hlenA : rowsC9.length = 10 := rfl
  have hlenB : rowsC9.reverse.length = 10 := rfl
  have hA : initializeVector rowsC9 [0, 1, 2, 3, 4] [5, 6, 7, 8, 9] 1 (7 / 10)
      = fun _ : Fin 1 => 1 := by
    simp only [initializeVector, hlenA, llmRank_fixed_ten]
    have hmeanC : vecMean ([0, 1, 2, 3, 4].map fun i => rowsC9.getD i fun _ => 0)
        = fun _ : Fin 1 => 1 := by
      funext j
      show (((1 : ℝ) + (1 + (1 + (1 + (1 + 0))))) / 5 : ℝ) = 1
      norm_num
    have hmeanF : vecMean ([5, 6, 7, 8, 9].map fun i => rowsC9.getD i fun _ => 0)
        = fun _ : Fin 1 => -1 := by
      funext j
      show (((-1 : ℝ) + (-1 + (-1 + (-1 + (-1 + 0))))) / 5 : ℝ) = -1
      norm_num
    simp only [composeVector, hmeanC, hmeanF]
    have hinner : (fun j : Fin 1 => (1 : ℝ) * 1 - 7 / 10 * (-1)) = fun _ : Fin 1 => (17 / 10 : ℝ) := by
      funext j
      norm_num
    rw [hinner, normalizeVec_const_one_dim (by norm_num [EPS]), normalizeVec_const_one_dim (by norm_num [EPS])]
  have hB : initializeVector rowsC9.reverse [0, 1, 2, 3, 4] [5, 6, 7, 8, 9] 1 (7 / 10)
      = fun _ : Fin 1 => -1 := by
    simp only [initializeVector, hlenB, llmRank_fixed_ten]
    have hmeanC : vecMean ([0, 1, 2, 3, 4].map fun i => rowsC9.reverse.getD i fun _ => 0)
        = fun _ : Fin 1 => -1 := by
      funext j
      show (((-1 : ℝ) + (-1 + (-1 + (-1 + (-1 + 0))))) / 5 : ℝ) = -1
      norm_num
    have hmeanF : vecMean ([5, 6, 7, 8, 9].map fun i => rowsC9.reverse.getD i fun _ => 0)
        = fun _ : Fin 1 => 1 := by
      funext j
      show (((1 : ℝ) + (1 + (1 + (1 + (1 + 0))))) / 5 : ℝ) = 1
      norm_num
    simp only [composeVector, hmeanC, hmeanF]
    have hinner : (fun j : Fin 1 => (1 : ℝ) * (-1) - 7 / 10 * 1) = fun _ : Fin 1 => (-17 / 10 : ℝ) := by
      funext j
      norm_num
    rw [hinner, normalizeVec_const_neg_one_dim (by norm_num [EPS]),
      normalizeVec_const_neg_one_dim (by norm_num [EPS])]
  rw [hA, hB]
  intro h
  have h0 := congrFun h 0
  norm_num at h0

/-- Witness for C9 (amended): two sample sequences of length 11 agreeing
at the ten selected indices but differing at the unselected index 10
persist the same vector. -/
theorem initializeVector_deterministic_witness :
    initializeVector (rowsC9 ++ [onePos]) [0, 1, 2, 3, 4] [5, 6, 7, 8, 9] 1 (7 / 10)
      = initializeVector (rowsC9 ++ [oneNeg]) [0, 1, 2, 3, 4] [5, 6, 7, 8, 9] 1 (7 / 10) := by
  apply initializeVector_deterministic
  · rfl
  · intro i hi
    have hidx : (llmRankClosestFarthest [0, 1, 2, 3, 4] [5, 6, 7, 8, 9]
        (rowsC9 ++ [onePos]).length).1
        ++ (llmRankClosestFarthest [0, 1, 2, 3, 4] [5, 6, 7, 8, 9]
        (rowsC9 ++ [onePos]).length).2 = [0, 1, 2, 3, 4, 5, 6, 7, 8, 9] := by
      decide
    rw [hidx] at hi
    fin_cases hi <;> rfl

/- ============================================================
   Degenerate composition: the zero vector is persisted
   two-tower/embedding_initializer.py lines 49-50 and 206-217
   ============================================================ -/

lemma normV_zero {n : ℕ} : normV (fun _ : Fin n => (0 : ℝ)) = 0 := by
  rw [normV, show dotV (fun _ : Fin n => (0 : ℝ)) (fun _ => 0) = 0 by simp [dotV],
    Real.sqrt_zero]

lemma normalizeVec_zero {n : ℕ} : normalizeVec (fun _ : Fin n => (0 : ℝ)) = fun _ => 0 := by
  unfold normalizeVec
  rw [normV_zero, if_pos EPS_pos.le]

/-- First unit vector of the degenerate pool (dimension 5). -/
noncomputable def aC8 : Vec 5 := ![1, 0, 0, 0, 0]

/-- Second unit vector of the degenerate pool. -/
noncomputable def bC8 : Vec 5 := ![1 / 4, 3 / 4, 1 / 2, 1 / 4, 1 / 4]

/-- Third unit vector of the degenerate pool; bC8 + dC8 = aC8 / 2, so the
closest mean is 7/10 of the farthest mean. -/
noncomputable def dC8 : Vec 5 := ![1 / 4, -(3 / 4), -(1 / 2), -(1 / 4), -(1 / 4)]

/-- A 10-row pool of unit vectors on which the default composition
pos_weight · mean(closest) - neg_weight · mean(farthest) is exactly
zero when the oracle selects indices 0-4 as closest and 5-9 as
farthest. -/
noncomputable def poolC8 : List (Vec 5) := [aC8, aC8, aC8, bC8, dC8, aC8, aC8, aC8, aC8, aC8]

lemma dotV_aC8 : dotV aC8 aC8 = 1 := by
  norm_num [dotV, aC8, Fin.sum_univ_five]

lemma dotV_bC8 : dotV bC8 bC8 = 1 := by
  norm_num [dotV, bC8, Fin.sum_univ_five]

lemma dotV_dC8 : dotV dC8 dC8 = 1 := by
  norm_num [dotV, dC8, Fin.sum_univ_five]

/-- The composition over the degenerate pool is exactly the zero vector. -/
lemma composeC8_eq_zero :
    composeVector poolC8 [0, 1, 2, 3, 4] [5, 6, 7, 8, 9] 1 (7 / 10)
      = fun _ : Fin 5 => 0 := by
  have hmC : vecMean ([0, 1, 2, 3, 4].map fun i => poolC8.getD i fun _ => 0)
      = fun j => (3 * aC8 j + bC8 j + dC8 j) / 5 := by
    funext j
    show (aC8 j + (aC8 j + (aC8 j + (bC8 j + (dC8 j + 0))))) / 5 = _
    ring
  have hmF : vecMean ([5, 6, 7, 8, 9].map fun i => poolC8.getD i fun _ => 0)
      = fun j => aC8 j := by
    funext j
    show (aC8 j + (aC8 j + (aC8 j + (aC8 j + (aC8 j + 0))))) / 5 = aC8 j
    ring
  simp only [composeVector, hmC, hmF]
  have hinner : (fun j : Fin 5 => 1 * ((3 * aC8 j + bC8 j + dC8 j) / 5) - 7 / 10 * aC8 j)
      = fun _ : Fin 5 => (0 : ℝ) := by
    funext j
    fin_cases j <;> norm_num [aC8, bC8, dC8]
  rw [hinner, normalizeVec_zero]

/-- The degenerate store state reached by upserting the zero composition. -/
noncomputable def storeC8 : VStore 5 :=
  upsertStore (fun _ => none) "job-1"
    (composeVector poolC8 [0, 1, 2, 3, 4] [5, 6, 7, 8, 9] 1 (7 / 10))

lemma getVector_storeC8 : getVector storeC8 "job-1" = some (fun _ : Fin 5 => 0) := by
  have hst : storeC8 "job-1" = some (fun _ : Fin 5 => 0) := by
    unfold storeC8 upsertStore
    rw [if_pos rfl, composeC8_eq_zero, normalizeVec_zero]
  rw [getVector, hst, Option.map_some', normalizeVec_zero]

/-- C8: the code has no near-zero fallback. On a pool of ten unit vectors
whose selected closest mean equals 7/10 of the selected farthest mean, the
composition with the default weights pos_weight = 1, neg_weight = 0.7 is
exactly the zero vector, the upsert persists it, and a read returns the
zero vector of norm 0; the random-unit helper of
two-tower/embedding_initializer.py lines 49-50 is never invoked. -/
theorem composeVector_zero_persisted :
    (∀ v ∈ poolC8, dotV v v = 1) ∧
    composeVector poolC8 [0, 1, 2, 3, 4] [5, 6, 7, 8, 9] 1 (7 / 10)
      = (fun _ : Fin 5 => 0) ∧
    getVector storeC8 "job-1" = some (fun _ : Fin 5 => 0) ∧
    normV (fun _ : Fin 5 => (0 : ℝ)) = 0 := by
  refine ⟨?_, composeC8_eq_zero, getVector_storeC8, normV_zero⟩
  intro v hv
  fin_cases hv
  · exact dotV_aC8
  · exact dotV_aC8
  · exact dotV_aC8
  · exact dotV_bC8
  · exact dotV_dC8
  · exact dotV_aC8
  · exact dotV_aC8
  · exact dotV_aC8
  · exact dotV_aC8
  · exact dotV_aC8

/-- Counterexample for C1 as stated: a reachable store state (a cold-start
upsert of a degenerate composition over unit vectors) on which the read
returns a present vector whose norm is 0, not ≈ 1. -/
theorem getVector_unit_norm_counterexample :
    ReachableStore storeC8 ∧
    getVector storeC8 "job-1" = some (fun _ : Fin 5 => 0) ∧
    ¬ normV (fun _ : Fin 5 => (0 : ℝ)) = 1 := by
  refine ⟨ReachableStore.upsert _ _ ReachableStore.empty, getVector_storeC8, ?_⟩
  rw [normV_zero]
  norm_num

/-- Witness for C1 (amended): a store reached by upserting the unit vector
(1, 0) returns it with norm exactly 1. -/
theorem getVector_unit_or_degenerate_witness :
    ReachableStore (upsertStore (fun _ => none) "job-1" e0two) ∧
    getVector (upsertStore (fun _ => none) "job-1" e0two) "job-1" = some e0two ∧
    (normV e0two = 1 ∨ normV e0two ≤ EPS) := by
  have hget : getVector (upsertStore (fun _ => none) "job-1" e0two) "job-1" = some e0two := by
    have hst : upsertStore (n := 2) (fun _ => none) "job-1" e0two "job-1"
        = some e0two := by
      unfold upsertStore
      rw [if_pos rfl, normalizeVec_of_unit dotV_e0two_e0two]
    rw [getVector, hst, Option.map_some', normalizeVec_of_unit dotV_e0two_e0two]
  exact ⟨ReachableStore.upsert _ _ ReachableStore.empty, hget,
    getVector_unit_or_degenerate _ "job-1" e0two
      (ReachableStore.upsert _ _ ReachableStore.empty) hget⟩

/- ============================================================
   Fallback ranker and get_top_candidates
   backend/services/company.py lines 350-376 and 902-971
   ============================================================ -/

/-- Characters matched by the tokenizing regex of the fallback ranker. -/
def isTokenChar (c : Char) : Bool := c.isAlphanum || c = '+' || c = '#' || c = '.'

/-- Maximal runs of token characters, the findall of the regex. -/
def tokenRuns : List Char → List Char → List (List Char)
  | [], acc => if acc.isEmpty then [] else [acc.reverse]
  | c :: rest, acc =>
    if isTokenChar c then tokenRuns rest (c :: acc)
    else if acc.isEmpty then tokenRuns rest [] else acc.reverse :: tokenRuns rest []

/-- Tokens of a string under the ranker regex. -/
def findTokens (s : String) : List String :=
  (tokenRuns s.toList []).map fun cs => String.mk cs

/-- Stop words of the fallback ranker (company.py lines 352-356). -/
def stopWords : List String :=
  ["the", "and", "for", "with", "that", "this", "from", "have", "has", "are", "you",
   "your", "top", "best", "give", "show", "find", "applicant", "applicants", "candidate",
   "candidates"]

/-- The prompt term set of the fallback ranker: tokens longer than two
characters whose lowercase form is not a stop word, lowercased and
deduplicated (a Python set; the counts below use only membership and
size, so the list order is immaterial). -/
def promptTerms (prompt : String) : List String :=
  (((findTokens prompt).filter fun t =>
      decide (2 < t.length ∧ t.toLower ∉ stopWords)).map String.toLower).dedup

/-- A candidate row as assembled by get_top_candidates (company.py lines
931-943). -/
structure Candidate where
  userId : String
  name : String
  skills : List String
  resumeText : String
  deriving DecidableEq

/-- A candidate with the score and reasoning fields added by a ranker. -/
structure RankedCandidate where
  cand : Candidate
  score : ℤ
  reasoning : String
  deriving DecidableEq

/-- Number of prompt terms among the candidate's lowercased skills. -/
def skillHits (terms : List String) (skills : List String) : ℕ :=
  (terms.filter fun t => decide (t ∈ skills.map String.toLower)).length

/-- Number of prompt terms occurring in the lowercased resume text. -/
def resumeHits (terms : List String) (resumeText : String) : ℕ :=
  (terms.filter fun t => decide (t.toList <:+: resumeText.toLower.toList)).length

/-- Model of the local fallback ranker (company.py lines 350-376): score
each candidate by 5 · skill hits + resume hits and sort by score
descending (Python sorted with reverse=True, a stable descending sort,
modelled by a stable merge sort with the reversed comparison). -/
def rankCandidates (prompt : String) (candidates : List Candidate) : List RankedCandidate :=
  let terms := promptTerms prompt
  (candidates.map fun c =>
    { cand := c,
      score := (5 * skillHits terms c.skills + resumeHits terms c.resumeText : ℕ),
      reasoning := "Local ranking: " ++ toString (skillHits terms c.skills)
        ++ " skill matches and " ++ toString (resumeHits terms c.resumeText)
        ++ " resume-text matches." } : List RankedCandidate).mergeSort
    fun x y => decide (y.score ≤ x.score)

/-- Python list slicing l[:n] for a possibly negative n. -/
def pySliceTo {α : Type} (l : List α) (n : ℤ) : List α :=
  if 0 ≤ n then l.take n.toNat else l.take (l.length - (-n).toNat)

/-- The result triple of get_top_candidates. -/
structure TopCandidatesResult where
  topCandidates : List RankedCandidate
  rankingSource : String
  rankingError : String

/-- Model of get_top_candidates (company.py lines 921-971) after the
candidate pool is assembled: the OpenAI ranking attempt comes in as an
Except (ok with its ranked list, or error carrying the exception text);
parseLimit stands for the prompt-limit parser (company.py lines 902-918),
whose every some-result lies in [1, 100]. On oracle failure the local
ranker is used, the source is "fallback" and the error text is recorded
truncated to 300 characters; the final slice keeps limit, else the parsed
limit, else 12 entries (a limit of 0 is falsy in Python and also falls
back to 12). -/
def sliceCount (rankedLen : ℕ) (n0 : Option ℤ) : ℤ :=
  match n0 with
  | some v => if v = 0 then min (rankedLen : ℤ) 12 else min (rankedLen : ℤ) v
  | none => min (rankedLen : ℤ) 12

/-- Truncation of a string to its first n characters, modelling the
Python slice str(exc)[:300]. -/
def pyTake (s : String) (n : ℕ) : String := String.mk (s.data.take n)

/-- The try/except around the OpenAI ranking call in get_top_candidates
(company.py lines 947-955): on success the oracle list with source
"openai", on failure the local ranker with source "fallback" and the
exception text truncated to 300 characters. -/
def oracleOutcome (prompt : String) (candidatePool : List Candidate) :
    Except String (List RankedCandidate) → List RankedCandidate × String × String
  | .ok ranked => (ranked, "openai", "")
  | .error exc => (rankCandidates prompt candidatePool, "fallback", pyTake exc 300)

/-- Model of get_top_candidates, continued: the final slice. -/
def getTopCandidates (parseLimit : String → Option ℤ)
    (oracle : Except String (List RankedCandidate)) (prompt : String)
    (candidatePool : List Candidate) (limit : Option ℤ) : TopCandidatesResult :=
  if candidatePool.isEmpty then
    { topCandidates := [], rankingSource := "none", rankingError := "" }
  else
    let rankedSrcErr := oracleOutcome prompt candidatePool oracle
    let nn : ℤ := sliceCount rankedSrcErr.1.length (limit.or (parseLimit prompt))
    { topCandidates := pySliceTo rankedSrcErr.1 nn,
      rankingSource := rankedSrcErr.2.1,
      rankingError := rankedSrcErr.2.2 }

lemma sliceCount_one_le (rankedLen : ℕ) (n0 : Option ℤ) (hlen : 0 < rankedLen)
    (h0 : ∀ k, n0 = some k → 0 ≤ k) : 1 ≤ sliceCount rankedLen n0 := by
  have h1 : (1 : ℤ) ≤ (rankedLen : ℤ) := by exact_mod_cast hlen
  cases n0 with
  | none => exact le_min h1 (by norm_num)
  | some v =>
    by_cases hv : v = 0
    · rw [sliceCount, if_pos hv]
      exact le_min h1 (by norm_num)
    · rw [sliceCount, if_neg hv]
      have := h0 v rfl
      exact le_min h1 (by omega)

/-- C7 (amended): with a nonempty applicant pool, the oracle raising, and
the requested limit absent or non-negative, get_top_candidates reports
ranking_source "fallback", records the truncated oracle error in
ranking_error, and returns a nonempty list of pool candidates carrying
the local scores 5 · skill hits + resume hits in descending score order.
(A negative limit argument can slice the list empty, see the
counterexample.) -/
theorem getTopCandidates_fallback_ranked (parseLimit : String → Option ℤ)
    (exc prompt : String) (pool : List Candidate) (limit : Option ℤ)
    (hpool : pool ≠ [])
    (hparse : ∀ p k, parseLimit p = some k → 1 ≤ k)
    (hlim : limit = none ∨ ∃ k, limit = some k ∧ 0 ≤ k) :
    (getTopCandidates parseLimit (.error exc) prompt pool limit).rankingSource = "fallback" ∧
    (getTopCandidates parseLimit (.error exc) prompt pool limit).rankingError = pyTake exc 300 ∧
    (getTopCandidates parseLimit (.error exc) prompt pool limit).topCandidates ≠ [] ∧
    (getTopCandidates parseLimit (.error exc) prompt pool limit).topCandidates.Pairwise
      (fun x y => y.score ≤ x.score) ∧
    (∀ r ∈ (getTopCandidates parseLimit (.error exc) prompt pool limit).topCandidates,
      r.cand ∈ pool ∧
      r.score = (5 * skillHits (promptTerms prompt) r.cand.skills
        + resumeHits (promptTerms prompt) r.cand.resumeText : ℕ)) := by
  have hne : pool.isEmpty = false := by
    cases pool with
    | nil => exact absurd rfl hpool
    | cons a l => rfl
  have hRlen : (rankCandidates prompt pool).length = pool.length := by
    rw [rankCandidates, List.length_mergeSort, List.length_map]
  have hRpos : 0 < (rankCandidates prompt pool).length := by
    rw [hRlen]
    exact List.length_pos.mpr hpool
  have heq : getTopCandidates parseLimit (.error exc) prompt pool limit
      = { topCandidates := pySliceTo (rankCandidates prompt pool)
            (sliceCount (rankCandidates prompt pool).length (limit.or (parseLimit prompt))),
          rankingSource := "fallback", rankingError := pyTake exc 300 } := by
    unfold getTopCandidates
    rw [hne]
    rw [show oracleOutcome prompt pool (.error exc)
        = (rankCandidates prompt pool, "fallback", pyTake exc 300) from rfl]
    rfl
  have hnn1 : 1 ≤ sliceCount (rankCandidates prompt pool).length
      (limit.or (parseLimit prompt)) := by
    apply sliceCount_one_le _ _ hRpos
    intro k hk
    rcases hlim with hnone | ⟨v, hv, hv0⟩
    · subst hnone
      rw [show (Option.none.or (parseLimit prompt) : Option ℤ) = parseLimit prompt from rfl] at hk
      exact le_trans (by norm_num) (hparse prompt k hk)
    · subst hv
      rw [show ((some v).or (parseLimit prompt) : Option ℤ) = some v from rfl] at hk
      cases hk
      exact hv0
  set nn := sliceCount (rankCandidates prompt pool).length (limit.or (parseLimit prompt))
    with hnndef
  have hslice : pySliceTo (rankCandidates prompt pool) nn
      = (rankCandidates prompt pool).take nn.toNat := by
    rw [pySliceTo, if_pos (by omega)]
  have hsortb : (rankCandidates prompt pool).Pairwise
      fun x y => decide (y.score ≤ x.score) = true := by
    rw [rankCandidates]
    exact List.sorted_mergeSort
      (fun a b c hab hbc => by
        simp only [decide_eq_true_eq] at *
        exact le_trans hbc hab)
      (fun a b => by
        simp only [Bool.or_eq_true, decide_eq_true_eq]
        exact le_total b.score a.score)
      _
  have hsort : (rankCandidates prompt pool).Pairwise fun x y => y.score ≤ x.score :=
    hsortb.imp fun h => of_decide_eq_true h
  have hmem : ∀ r ∈ rankCandidates prompt pool,
      r.cand ∈ pool ∧
      r.score = (5 * skillHits (promptTerms prompt) r.cand.skills
        + resumeHits (promptTerms prompt) r.cand.resumeText : ℕ) := by
    intro r hr
    rw [rankCandidates] at hr
    rw [(List.mergeSort_perm _ _).mem_iff] at hr
    obtain ⟨c, hc, rfl⟩ := List.mem_map.mp hr
    exact ⟨hc, rfl⟩
  rw [heq]
  refine ⟨rfl, rfl, ?_, ?_, ?_⟩
  · rw [hslice]
    intro hnil
    have := congrArg List.length hnil
    rw [List.length_take] at this
    simp only [List.length_nil] at this
    omega
  · rw [hslice]
    exact List.Pairwise.sublist (List.take_sublist _ _) hsort
  · intro r hr
    rw [hslice] at hr
    exact hmem r (List.take_subset _ _ hr)

/-- The single-candidate pool for the negative-limit counterexample. -/
def candC7 : Candidate :=
  { userId := "u1", name := "Ada", skills := ["python"], resumeText := "python expert" }

/-- Counterexample for C7 as stated: with a nonempty pool and the oracle
raising, a request with limit = -1 (the limit field of the request schema
is an unvalidated optional int) still reports "fallback" but returns an
empty candidate list, because Python slicing with a negative bound drops
entries from the end of the ranked list. -/
theorem getTopCandidates_negative_limit_counterexample :
    (getTopCandidates (fun _ => none) (.error "oracle down") "python expert"
        [candC7] (some (-1))).rankingSource = "fallback" ∧
    (getTopCandidates (fun _ => none) (.error "oracle down") "python expert"
        [candC7] (some (-1))).topCandidates = [] := by
  have hlen : (rankCandidates "python expert" [candC7]).length = 1 := by
    rw [rankCandidates, List.length_mergeSort, List.length_map]
    rfl
  constructor
  · rfl
  · show pySliceTo (rankCandidates "python expert" [candC7])
        (sliceCount (rankCandidates "python expert" [candC7]).length
          ((some (-1) : Option ℤ).or ((fun _ => none) "python expert"))) = []
    rw [hlen]
    rw [show sliceCount 1 ((some (-1) : Option ℤ).or none) = -1 by rfl]
    rw [pySliceTo, if_neg (by norm_num), hlen]
    rfl

/-- Witness for C7 (amended): a one-candidate pool with no limit given and
the oracle raising yields source "fallback" and a nonempty list. -/
theorem getTopCandidates_fallback_ranked_witness :
    (getTopCandidates (fun _ => none) (.error "oracle down") "python expert"
        [candC7] none).rankingSource = "fallback" ∧
    (getTopCandidates (fun _ => none) (.error "oracle down") "python expert"
        [candC7] none).topCandidates ≠ [] :=
  have h := getTopCandidates_fallback_ranked (fun _ => none) "oracle down" "python expert"
      [candC7] none (List.cons_ne_nil _ _) (fun _ k hk => nomatch hk) (Or.inl rfl)
  ⟨h.1, h.2.2.1⟩

/- ============================================================
   Daily job pool sampler
   backend/services/user.py lines 107-137
   ============================================================ -/

/-- Stale-day eviction of the daily pool cache (user.py lines 120-123):
only entries keyed to today survive. The cache is an association list
keyed by (user_id, day); job ids are generic over a linearly ordered type
(strings under lexicographic order in the source; only equality and the
sort order are used). -/
def freshCache {α : Type} (today : String)
    (cache : List ((String × String) × List α)) : List ((String × String) × List α) :=
  cache.filter fun e => decide (e.1.2 = today)

/-- The cached pool for (user_id, today) after eviction (user.py line
125), empty when absent. -/
def cachedPool {α : Type} (userId today : String)
    (cache : List ((String × String) × List α)) : List α :=
  (((freshCache today cache).find? fun e => decide (e.1 = (userId, today))).map
    Prod.snd).getD []

/-- The cached pool restricted to still-open jobs, keeping its order
(user.py line 127). -/
def dailyPool0 {α : Type} [DecidableEq α] (userId today : String)
    (availableJobIds : List α) (cache : List ((String × String) × List α)) : List α :=
  (cachedPool userId today cache).filter fun jid => decide (jid ∈ availableJobIds)

/-- The backfill candidates: sorted deduplicated open jobs not already in
the pool (user.py line 130; sorted(available_set) sorts the distinct open
ids). -/
def dailyRemaining {α : Type} [DecidableEq α] [LinearOrder α]
    (availableJobIds : List α) (pool0 : List α) : List α :=
  (availableJobIds.dedup.mergeSort fun a b => decide (a ≤ b)).filter
    fun jid => decide (jid ∉ pool0)

/-- The pool after the backfill step (user.py lines 129-133): when the
filtered cached pool is short, extend it with the seeded shuffle of the
remaining candidates, up to the sample size. -/
def dailyPool1 {α : Type} [DecidableEq α] [LinearOrder α]
    (shuffle : String → List α → List α) (userId today : String)
    (availableJobIds : List α) (sampleSize : ℕ)
    (cache : List ((String × String) × List α)) : List α :=
  if (dailyPool0 userId today availableJobIds cache).length < sampleSize then
    dailyPool0 userId today availableJobIds cache
      ++ (shuffle (userId ++ ":" ++ today)
            (dailyRemaining availableJobIds (dailyPool0 userId today availableJobIds cache))).take
          (sampleSize - (dailyPool0 userId today availableJobIds cache).length)
  else dailyPool0 userId today availableJobIds cache

/-- Model of the daily pool getter (backend/services/user.py lines
111-137). The shuffle argument stands for random.Random(seed).shuffle, a
deterministic permutation of its input for each seed string; today is the
UTC calendar day key. Returns the pool and the updated cache. -/
def getOrCreateDailyJobPool {α : Type} [DecidableEq α] [LinearOrder α]
    (shuffle : String → List α → List α) (userId today : String)
    (availableJobIds : List α) (sampleSize : ℕ)
    (cache : List ((String × String) × List α)) :
    List α × List ((String × String) × List α) :=
  if sampleSize = 0 ∨ availableJobIds = [] then ([], cache)
  else
    ((dailyPool1 shuffle userId today availableJobIds sampleSize cache).take sampleSize,
     ((userId, today),
        (dailyPool1 shuffle userId today availableJobIds sampleSize cache).take sampleSize)
       :: (freshCache today cache).filter fun e => decide (e.1 ≠ (userId, today)))

lemma cachedPool_cons_self {α : Type} (userId today : String) (p : List α)
    (rest : List ((String × String) × List α)) :
    cachedPool userId today (((userId, today), p) :: rest) = p := by
  unfold cachedPool freshCache
  rw [List.filter_cons_of_pos (by simp), List.find?_cons_of_pos _ (by simp)]
  rfl

lemma dailyPool0_mem {α : Type} [DecidableEq α] {userId today : String}
    {avail : List α} {cache : List ((String × String) × List α)} {x : α}
    (hx : x ∈ dailyPool0 userId today avail cache) : x ∈ avail := by
  unfold dailyPool0 at hx
  exact of_decide_eq_true (List.mem_filter.mp hx).2

lemma dailyRemaining_mem {α : Type} [DecidableEq α] [LinearOrder α]
    {avail pool0 : List α} {x : α} (hx : x ∈ dailyRemaining avail pool0) :
    x ∈ avail ∧ x ∉ pool0 := by
  unfold dailyRemaining at hx
  have h1 := List.mem_filter.mp hx
  exact ⟨List.mem_dedup.mp (((List.mergeSort_perm _ _).mem_iff).mp h1.1),
    of_decide_eq_true h1.2⟩

lemma mem_dailyRemaining {α : Type} [DecidableEq α] [LinearOrder α]
    {avail pool0 : List α} {x : α} (hav : x ∈ avail) (hnp : x ∉ pool0) :
    x ∈ dailyRemaining avail pool0 := by
  unfold dailyRemaining
  exact List.mem_filter.mpr
    ⟨((List.mergeSort_perm _ _).mem_iff).mpr (List.mem_dedup.mpr hav), decide_eq_true hnp⟩

lemma dailyPool1_mem {α : Type} [DecidableEq α] [LinearOrder α]
    {shuffle : String → List α → List α} (hperm : ∀ s l, (shuffle s l).Perm l)
    {userId today : String} {avail : List α} {ss : ℕ}
    {cache : List ((String × String) × List α)} {x : α}
    (hx : x ∈ dailyPool1 shuffle userId today avail ss cache) : x ∈ avail := by
  unfold dailyPool1 at hx
  split at hx
  · rcases List.mem_append.mp hx with h | h
    · exact dailyPool0_mem h
    · exact (dailyRemaining_mem (((hperm _ _).mem_iff).mp (List.take_subset _ _ h))).1
  · exact dailyPool0_mem hx

lemma dailyPool1_saturated {α : Type} [DecidableEq α] [LinearOrder α]
    {shuffle : String → List α → List α} (hperm : ∀ s l, (shuffle s l).Perm l)
    {userId today : String} {avail : List α} {ss : ℕ}
    {cache : List ((String × String) × List α)}
    (hshort : (dailyPool1 shuffle userId today avail ss cache).length < ss) :
    ∀ x ∈ avail, x ∈ dailyPool1 shuffle userId today avail ss cache := by
  intro x hx
  unfold dailyPool1 at hshort ⊢
  by_cases hb : (dailyPool0 userId today avail cache).length < ss
  · rw [if_pos hb] at hshort ⊢
    rw [List.length_append, List.length_take] at hshort
    have hfull : (shuffle (userId ++ ":" ++ today)
          (dailyRemaining avail (dailyPool0 userId today avail cache))).take
        (ss - (dailyPool0 userId today avail cache).length)
        = shuffle (userId ++ ":" ++ today)
            (dailyRemaining avail (dailyPool0 userId today avail cache)) :=
      List.take_of_length_le (by omega)
    by_cases hx0 : x ∈ dailyPool0 userId today avail cache
    · exact List.mem_append.mpr (Or.inl hx0)
    · refine List.mem_append.mpr (Or.inr ?_)
      rw [hfull]
      exact ((hperm _ _).mem_iff).mpr (mem_dailyRemaining hx hx0)
  · rw [if_neg hb] at hshort
    omega

lemma dailyPool_second_call {α : Type} [DecidableEq α] [LinearOrder α]
    {shuffle : String → List α → List α} (hperm : ∀ s l, (shuffle s l).Perm l)
    (userId today : String) (avail p : List α) (ss : ℕ)
    (cache2 : List ((String × String) × List α))
    (hcp : cachedPool userId today cache2 = p)
    (hsub : ∀ x ∈ p, x ∈ avail)
    (hfit : p.length = ss ∨ (p.length < ss ∧ ∀ x ∈ avail, x ∈ p)) :
    (dailyPool1 shuffle userId today avail ss cache2).take ss = p := by
  have hpool0 : dailyPool0 userId today avail cache2 = p := by
    unfold dailyPool0
    rw [hcp]
    exact List.filter_eq_self.mpr fun a ha => decide_eq_true (hsub a ha)
  unfold dailyPool1
  rw [hpool0]
  rcases hfit with hfull | ⟨hlt, hsat⟩
  · rw [if_neg (by omega)]
    exact List.take_of_length_le (by omega)
  · rw [if_pos hlt]
    have hrem : dailyRemaining avail p = [] := by
      apply List.filter_eq_nil.mpr
      intro a ha
      have hmem : a ∈ avail := List.mem_dedup.mp (((List.mergeSort_perm _ _).mem_iff).mp ha)
      simp only [decide_eq_true_eq]
      exact not_not_intro (hsat a hmem)
    rw [hrem, (hperm _ []).eq_nil, List.take_nil, List.append_nil]
    exact List.take_of_length_le (le_of_lt hlt)

/-- C10: (1) for a fixed (user_id, UTC day) seed and an unchanged open-job
set, calling the sampler again on the cache produced by a first call
returns the identical ordered pool; (2) when exactly one pooled job has
left the open set, the next same-day call keeps the remaining pooled jobs
in their relative order (a sublist of the old pool) and appends exactly
one replacement, drawn from the open jobs outside the old pool by the
same seeded shuffle. The shuffle hypothesis says random.Random(seed)
.shuffle permutes its input. -/
theorem dailyJobPool_stable_and_backfills {α : Type} [DecidableEq α] [LinearOrder α]
    (shuffle : String → List α → List α)
    (hperm : ∀ s l, (shuffle s l).Perm l) (userId today : String) :
    (∀ (avail : List α) (ss : ℕ) (cache : List ((String × String) × List α)),
      (getOrCreateDailyJobPool shuffle userId today avail ss
          (getOrCreateDailyJobPool shuffle userId today avail ss cache).2).1
        = (getOrCreateDailyJobPool shuffle userId today avail ss cache).1) ∧
    (∀ (p avail2 : List α) (j : α) (ss : ℕ), p.Nodup → p.length = ss →
      j ∈ p → j ∉ avail2 → (∀ x ∈ p, x = j ∨ x ∈ avail2) →
      (∃ x ∈ avail2, x ∉ p) →
      ∃ r, (getOrCreateDailyJobPool shuffle userId today avail2 ss
            [((userId, today), p)]).1
          = (p.filter fun x => decide (x ∈ avail2)) ++ [r]
        ∧ r ∈ avail2 ∧ r ∉ p
        ∧ (p.filter fun x => decide (x ∈ avail2)).Sublist p) := by
  constructor
  · intro avail ss cache
    by_cases h0 : ss = 0 ∨ avail = []
    · have h1 : getOrCreateDailyJobPool shuffle userId today avail ss cache = ([], cache) := by
        unfold getOrCreateDailyJobPool
        rw [if_pos h0]
      rw [h1]
      show (getOrCreateDailyJobPool shuffle userId today avail ss cache).1 = ([] : List α)
      rw [h1]
    · have hres : getOrCreateDailyJobPool shuffle userId today avail ss cache
          = ((dailyPool1 shuffle userId today avail ss cache).take ss,
             ((userId, today), (dailyPool1 shuffle userId today avail ss cache).take ss)
               :: (freshCache today cache).filter fun e => decide (e.1 ≠ (userId, today))) := by
        unfold getOrCreateDailyJobPool
        rw [if_neg h0]
      have hsub : ∀ x ∈ (dailyPool1 shuffle userId today avail ss cache).take ss,
          x ∈ avail := fun x hx => dailyPool1_mem hperm (List.take_subset _ _ hx)
      have hplen : ((dailyPool1 shuffle userId today avail ss cache).take ss).length ≤ ss := by
        rw [List.length_take]
        omega
      have hcp2 : cachedPool userId today
          (((userId, today), (dailyPool1 shuffle userId today avail ss cache).take ss)
            :: (freshCache today cache).filter fun e => decide (e.1 ≠ (userId, today)))
          = (dailyPool1 shuffle userId today avail ss cache).take ss :=
        cachedPool_cons_self _ _ _ _
      have hfit : ((dailyPool1 shuffle userId today avail ss cache).take ss).length = ss
          ∨ (((dailyPool1 shuffle userId today avail ss cache).take ss).length < ss
            ∧ ∀ x ∈ avail, x ∈ (dailyPool1 shuffle userId today avail ss cache).take ss) := by
        rcases eq_or_lt_of_le hplen with he | hl
        · exact Or.inl he
        · right
          refine ⟨hl, fun x hx => ?_⟩
          have hpl1 : (dailyPool1 shuffle userId today avail ss cache).length < ss := by
            rw [List.length_take] at hl
            omega
          rw [List.take_of_length_le (le_of_lt hpl1)]
          exact dailyPool1_saturated hperm hpl1 x hx
      rw [hres]
      show (getOrCreateDailyJobPool shuffle userId today avail ss
          (((userId, today), (dailyPool1 shuffle userId today avail ss cache).take ss)
            :: (freshCache today cache).filter fun e => decide (e.1 ≠ (userId, today)))).1
        = (dailyPool1 shuffle userId today avail ss cache).take ss
      unfold getOrCreateDailyJobPool
      rw [if_neg h0]
      exact dailyPool_second_call hperm userId today avail _ ss _ hcp2 hsub hfit
  · intro p avail2 j ss hnd hlen hj hjav hsub hrepl
    obtain ⟨x0, hx0av, hx0p⟩ := hrepl
    have hss1 : 1 ≤ ss := by
      rw [← hlen]
      exact List.length_pos.mpr (List.ne_nil_of_mem hj)
    have h0 : ¬ (ss = 0 ∨ avail2 = []) := by
      push_neg
      exact ⟨by omega, List.ne_nil_of_mem hx0av⟩
    have hpool0 : dailyPool0 userId today avail2 [((userId, today), p)]
        = p.filter fun x => decide (x ∈ avail2) := by
      unfold dailyPool0
      rw [cachedPool_cons_self]
    have hP0sub : (p.filter fun x => decide (x ∈ avail2)).Sublist p := List.filter_sublist p
    have hP0len : (p.filter fun x => decide (x ∈ avail2)).length + 1 = p.length := by
      have hcount := List.length_eq_countP_add_countP (fun x => decide (x ∈ avail2)) p
      have hc1 : List.countP (fun a => decide ¬(decide (a ∈ avail2) = true)) p = 1 := by
        have hcongr : List.countP (fun a => decide ¬(decide (a ∈ avail2) = true)) p
            = List.countP (fun x => x == j) p := by
          apply List.countP_congr
          intro x hx
          by_cases hxe : x = j
          · subst hxe
            simp [hjav]
          · rcases hsub x hx with rfl | hmem
            · exact absurd rfl hxe
            · simp [hmem, hxe]
        rw [hcongr, ← List.count_eq_countP, List.count_eq_one_of_mem hnd hj]
      rw [List.countP_eq_length_filter] at hcount
      omega
    have hP0lt : (p.filter fun x => decide (x ∈ avail2)).length < ss := by omega
    have hx0P0 : x0 ∉ (p.filter fun x => decide (x ∈ avail2)) := fun hmem =>
      hx0p (hP0sub.subset hmem)
    have hx0rem : x0 ∈ dailyRemaining avail2 (p.filter fun x => decide (x ∈ avail2)) :=
      mem_dailyRemaining hx0av hx0P0
    have hSne : shuffle (userId ++ ":" ++ today)
        (dailyRemaining avail2 (p.filter fun x => decide (x ∈ avail2))) ≠ [] := by
      intro hS
      have hr : dailyRemaining avail2 (p.filter fun x => decide (x ∈ avail2)) = [] :=
        ((hS ▸ hperm (userId ++ ":" ++ today)
          (dailyRemaining avail2 (p.filter fun x => decide (x ∈ avail2)))).symm).eq_nil
      rw [hr] at hx0rem
      exact absurd hx0rem (List.not_mem_nil x0)
    obtain ⟨r, t, hrt⟩ := List.exists_cons_of_ne_nil hSne
    have hr_mem : r ∈ shuffle (userId ++ ":" ++ today)
        (dailyRemaining avail2 (p.filter fun x => decide (x ∈ avail2))) := by
      rw [hrt]
      exact List.mem_cons_self r t
    have hr_rem := ((hperm _ _).mem_iff).mp hr_mem
    have hr_av : r ∈ avail2 := (dailyRemaining_mem hr_rem).1
    have hr_nP0 : r ∉ (p.filter fun x => decide (x ∈ avail2)) := (dailyRemaining_mem hr_rem).2
    have hr_np : r ∉ p := by
      intro hrp
      rcases hsub r hrp with rfl | hmem
      · exact hjav hr_av
      · exact hr_nP0 (List.mem_filter.mpr ⟨hrp, decide_eq_true hmem⟩)
    have htake1 : (shuffle (userId ++ ":" ++ today)
        (dailyRemaining avail2 (p.filter fun x => decide (x ∈ avail2)))).take
          (ss - (p.filter fun x => decide (x ∈ avail2)).length) = [r] := by
      have hone : ss - (p.filter fun x => decide (x ∈ avail2)).length = 1 := by omega
      rw [hone, hrt]
      rfl
    have hpool1 : dailyPool1 shuffle userId today avail2 ss [((userId, today), p)]
        = (p.filter fun x => decide (x ∈ avail2)) ++ [r] := by
      unfold dailyPool1
      rw [hpool0, if_pos hP0lt, htake1]
    refine ⟨r, ?_, hr_av, hr_np, hP0sub⟩
    unfold getOrCreateDailyJobPool
    rw [if_neg h0]
    show (dailyPool1 shuffle userId today avail2 ss [((userId, today), p)]).take ss
      = (p.filter fun x => decide (x ∈ avail2)) ++ [r]
    rw [hpool1]
    apply List.take_of_length_le
    rw [List.length_append]
    simp only [List.length_cons, List.length_nil]
    omega

/-- Witness for C10: with the identity shuffle (a permutation of its
input), open jobs 1..3 and sample size 2: the repeated call returns the
same pool, and after job 1 closes the next call keeps the remaining
pooled job and appends exactly one replacement from outside the old
pool. -/
theorem dailyJobPool_stable_and_backfills_witness :
    ((getOrCreateDailyJobPool (α := ℕ) (fun _ l => l) "user-1" "2026-10-12" [1, 2, 3] 2
        (getOrCreateDailyJobPool (α := ℕ) (fun _ l => l) "user-1" "2026-10-12"
          [1, 2, 3] 2 []).2).1
      = (getOrCreateDailyJobPool (α := ℕ) (fun _ l => l) "user-1" "2026-10-12"
          [1, 2, 3] 2 []).1) ∧
    (∃ r, (getOrCreateDailyJobPool (α := ℕ) (fun _ l => l) "user-1" "2026-10-12" [2, 3] 2
          [(("user-1", "2026-10-12"), [1, 2])]).1
        = ([1, 2].filter fun x => decide (x ∈ [2, 3])) ++ [r]
      ∧ r ∈ [2, 3] ∧ r ∉ [1, 2]
      ∧ ([1, 2].filter fun x => decide (x ∈ [2, 3])).Sublist [1, 2]) :=
  have h := dailyJobPool_stable_and_backfills (α := ℕ) (fun _ l => l)
      (fun _ l => List.Perm.refl l) "user-1" "2026-10-12"
  ⟨h.1 [1, 2, 3] 2 [], h.2 [1, 2] [2, 3] 1 2 (by decide) (by decide) (by decide)
      (by decide) (by decide) (by decide)⟩
